import Mathlib

/-!
Shallow embedding of the pr-tracker repository (src/src-tauri/src).

The SQLite store is modelled as explicit lists of rows, one list per table,
together with the next autoincrement rowid for each table.  Every data-access
operation from database.rs is translated as a pure function that threads the
store state and returns the Result of the Rust function as an Except value.
SQL-level behaviour that the Rust code relies on is made explicit:

* UNIQUE constraints (projects.name, team_members.github_username,
  pull_requests.github_id) make the corresponding INSERT or UPDATE fail;
* sqlx enables PRAGMA foreign_keys by default, so an INSERT or UPDATE whose
  modified rows would reference a missing parent row fails;
* UPDATE and DELETE affect exactly the rows matched by their WHERE clause and
  succeed even when no row matches;
* fetch_optional returns an Option, fetch_one fails on an empty result set.

The OS keychain used by github.rs is idealised as an `Option String` (at most
one secret is stored under the fixed service/account pair), and the network is
an oracle parameter, so that the glue code around both can be verified.
-/

/- ---------- data model (database.rs structs; table rows) ---------- -/

/-- Row of the team_members table, and the TeamMember struct of database.rs. -/
structure TeamMember where
  id : Int
  github_username : String
  avatar_url : Option String
  display_name : Option String
  created_at : Int
deriving DecidableEq, Repr

/-- Row of the projects table, and the Project struct of database.rs. -/
structure Project where
  id : Int
  name : String
  description : Option String
  created_at : Int
deriving DecidableEq, Repr

/-- Row of the pull_requests table (the raw columns, without joined fields). -/
structure PRRow where
  id : Int
  github_id : Int
  pr_number : Int
  title : Option String
  author_id : Int
  project_id : Option Int
  last_updated_at : Int
  status : String
  branch : Option String
  score : Option Int
  repository_owner : Option String
  repository_name : Option String
deriving DecidableEq, Repr

/-- The PullRequest struct of database.rs: a pull_requests row enriched with
the LEFT JOIN fields author_name, author_avatar, author_display_name and
project_name. -/
structure PullRequest where
  id : Int
  github_id : Int
  pr_number : Int
  title : Option String
  author_id : Int
  project_id : Option Int
  last_updated_at : Int
  author_name : Option String
  author_avatar : Option String
  author_display_name : Option String
  project_name : Option String
  status : String
  branch : Option String
  score : Option Int
  repository_owner : Option String
  repository_name : Option String
deriving DecidableEq, Repr

/-- Row of the review_history table (defined in the schema, unused by any
exposed operation). -/
structure ReviewHistory where
  id : Int
  pr_id : Int
  action : String
  performed_at : Int
deriving DecidableEq, Repr

/-- The SQLite store: one list per table plus the next autoincrement rowid of
each table that the code inserts into. -/
structure DB where
  projects : List Project
  team_members : List TeamMember
  pull_requests : List PRRow
  review_history : List ReviewHistory
  next_project_id : Int
  next_member_id : Int
  next_pr_id : Int
deriving DecidableEq, Repr

/-- LEFT JOIN of a pull_requests row with team_members (on author_id) and
projects (on project_id), as in the SELECT statements of database.rs. -/
def toView (db : DB) (r : PRRow) : PullRequest :=
  let author : Option TeamMember :=
    db.team_members.find? (fun m => m.id = r.author_id)
  let proj : Option Project :=
    match r.project_id with
    | some pid => db.projects.find? (fun p => p.id = pid)
    | none => none
  { id := r.id
    github_id := r.github_id
    pr_number := r.pr_number
    title := r.title
    author_id := r.author_id
    project_id := r.project_id
    last_updated_at := r.last_updated_at
    author_name := author.map (fun m => m.github_username)
    author_avatar := author.bind (fun m => m.avatar_url)
    author_display_name := author.bind (fun m => m.display_name)
    project_name := proj.map (fun p => p.name)
    status := r.status
    branch := r.branch
    score := r.score
    repository_owner := r.repository_owner
    repository_name := r.repository_name }

/- ---------- database.rs operations ---------- -/

/-- Database::add_project: INSERT INTO projects; the UNIQUE constraint on
projects.name makes the insert fail when the name is already present. -/
def add_project (db : DB) (name : String) (description : Option String)
    (current_time : Int) : (Except String Project) × DB :=
  if db.projects.any (fun p => p.name = name) then
    (.error "UNIQUE constraint failed: projects.name", db)
  else
    let proj : Project :=
      { id := db.next_project_id, name := name, description := description
        created_at := current_time }
    (.ok proj,
      { db with projects := db.projects ++ [proj]
                next_project_id := db.next_project_id + 1 })

/-- Number of pull_requests rows whose project_id references the given
project id (the COUNT(*) in Database::delete_project). -/
def refCount (db : DB) (id : Int) : Nat :=
  (db.pull_requests.filter (fun r => r.project_id = some id)).length

/-- Database::delete_project: first counts referencing pull requests and
fails with a count-bearing message if any exist; otherwise runs the DELETE
and fails with "Project not found" when it affected no row. -/
def delete_project (db : DB) (id : Int) : (Except String Unit) × DB :=
  let pr_count := refCount db id
  if 0 < pr_count then
    (.error ("Cannot delete project: " ++ toString pr_count ++
      " pull requests are assigned to this project. Please reassign them first."), db)
  else
    let affected := (db.projects.filter (fun p => p.id = id)).length
    let db' := { db with projects := db.projects.filter (fun p => ¬ p.id = id) }
    if affected = 0 then (.error "Project not found", db')
    else (.ok (), db')

/-- Database::get_project_by_id: fetch_optional, never an error. -/
def get_project_by_id (db : DB) (id : Int) : Except String (Option Project) :=
  .ok (db.projects.find? (fun p => p.id = id))

/-- Database::update_project: UPDATE projects SET name, description WHERE id,
then re-SELECT the row with fetch_one.  The UNIQUE constraint on
projects.name makes the UPDATE fail when it would give the updated row the
name of a different row; fetch_one fails when the id matches no row. -/
def update_project (db : DB) (id : Int) (name : String)
    (description : Option String) : (Except String Project) × DB :=
  if (db.projects.any (fun p => p.id = id)) ∧
      (db.projects.any (fun q => q.id ≠ id ∧ q.name = name)) then
    (.error "UNIQUE constraint failed: projects.name", db)
  else
    let projects' := db.projects.map (fun p =>
      if p.id = id then { p with name := name, description := description } else p)
    let db' := { db with projects := projects' }
    match projects'.find? (fun p => p.id = id) with
    | some p => (.ok p, db')
    | none =>
      (.error "no rows returned by a query that expected to return at least one row", db')

/-- Database::get_or_create_team_member: SELECT by username (fetch_one); on
success return the row, otherwise INSERT a fresh row with NULL avatar and
display name and return it. -/
def get_or_create_team_member (db : DB) (github_username : String)
    (current_time : Int) : (Except String TeamMember) × DB :=
  match db.team_members.find? (fun m => m.github_username = github_username) with
  | some m => (.ok m, db)
  | none =>
    let m : TeamMember :=
      { id := db.next_member_id, github_username := github_username
        avatar_url := none, display_name := none, created_at := current_time }
    (.ok m,
      { db with team_members := db.team_members ++ [m]
                next_member_id := db.next_member_id + 1 })

/-- Database::get_team_member_by_username: fetch_optional, never an error. -/
def get_team_member_by_username (db : DB) (username : String) :
    Except String (Option TeamMember) :=
  .ok (db.team_members.find? (fun m => m.github_username = username))

/-- Database::add_team_member: INSERT INTO team_members; the UNIQUE
constraint on github_username makes the insert fail on a duplicate. -/
def add_team_member (db : DB) (github_username : String)
    (avatar_url : Option String) (display_name : Option String)
    (now : Int) : (Except String TeamMember) × DB :=
  if db.team_members.any (fun m => m.github_username = github_username) then
    (.error "UNIQUE constraint failed: team_members.github_username", db)
  else
    let m : TeamMember :=
      { id := db.next_member_id, github_username := github_username
        avatar_url := avatar_url, display_name := display_name, created_at := now }
    (.ok m,
      { db with team_members := db.team_members ++ [m]
                next_member_id := db.next_member_id + 1 })

/-- Database::update_team_member_info: UPDATE team_members SET avatar_url,
display_name WHERE id; succeeds whether or not a row matches. -/
def update_team_member_info (db : DB) (member_id : Int) (avatar_url : String)
    (display_name : Option String) : (Except String Unit) × DB :=
  (.ok (),
    { db with team_members := db.team_members.map (fun m =>
        if m.id = member_id then
          { m with avatar_url := some avatar_url, display_name := display_name }
        else m) })

/-- Database::get_pull_request_by_github_id: fetch_optional of the joined
SELECT, never an error. -/
def get_pull_request_by_github_id (db : DB) (github_id : Int) :
    Except String (Option PullRequest) :=
  .ok ((db.pull_requests.find? (fun r => r.github_id = github_id)).map (toView db))

/-- Database::update_pr_status: UPDATE pull_requests SET status WHERE id;
succeeds whether or not a row matches. -/
def update_pr_status (db : DB) (pr_id : Int) (the_status : String) :
    (Except String Unit) × DB :=
  (.ok (),
    { db with pull_requests := db.pull_requests.map (fun r =>
        if r.id = pr_id then { r with status := the_status } else r) })

/-- Database::update_pr_score: UPDATE pull_requests SET score WHERE id;
succeeds whether or not a row matches. -/
def update_pr_score (db : DB) (pr_id : Int) (score : Int) :
    (Except String Unit) × DB :=
  (.ok (),
    { db with pull_requests := db.pull_requests.map (fun r =>
        if r.id = pr_id then { r with score := some score } else r) })

/-- Database::update_pr_project: UPDATE pull_requests SET project_id WHERE id.
Foreign keys are enforced, so the statement fails when a row is actually
updated and the new project_id references no project; with no matching row
the UPDATE modifies nothing and succeeds. -/
def update_pr_project (db : DB) (pr_id : Int) (project_id : Int) :
    (Except String Unit) × DB :=
  if (db.pull_requests.any (fun r => r.id = pr_id)) ∧
      ¬ (db.projects.any (fun p => p.id = project_id)) then
    (.error "FOREIGN KEY constraint failed", db)
  else
    (.ok (),
      { db with pull_requests := db.pull_requests.map (fun r =>
          if r.id = pr_id then { r with project_id := some project_id } else r) })

/-- The pull_requests row built by the INSERT of Database::add_pull_request:
a fresh rowid, the given column values, NULL score, and now as the
last_updated_at timestamp. -/
def newPRRow (db : DB) (github_id pr_number : Int) (title : Option String)
    (author_id : Int) (project_id : Option Int) (branch : Option String)
    (the_status : String) (repository_owner repository_name : Option String)
    (now : Int) : PRRow :=
  { id := db.next_pr_id, github_id := github_id, pr_number := pr_number
    title := title, author_id := author_id, project_id := project_id
    last_updated_at := now, status := the_status, branch := branch
    score := none, repository_owner := repository_owner
    repository_name := repository_name }

/-- The store after the INSERT of Database::add_pull_request: the new row is
appended and the autoincrement counter advances. -/
def insertedDB (db : DB) (row : PRRow) : DB :=
  { db with pull_requests := db.pull_requests ++ [row]
            next_pr_id := db.next_pr_id + 1 }

/-- Whether the foreign keys of a new pull_requests row resolve: author_id
must reference a team member and a non-NULL project_id must reference a
project (sqlx enables PRAGMA foreign_keys). -/
def prFkOk (db : DB) (author_id : Int) (project_id : Option Int) : Bool :=
  (db.team_members.any (fun m => m.id = author_id)) &&
  (match project_id with
   | some pid => db.projects.any (fun p => p.id = pid)
   | none => true)

/-- Database::add_pull_request: INSERT INTO pull_requests (UNIQUE github_id
and foreign keys enforced), then re-SELECT the joined row with fetch_one. -/
def add_pull_request (db : DB) (github_id pr_number : Int)
    (title : Option String) (author_id : Int) (project_id : Option Int)
    (branch : Option String) (the_status : String)
    (repository_owner repository_name : Option String) (now : Int) :
    (Except String PullRequest) × DB :=
  if db.pull_requests.any (fun r => r.github_id = github_id) then
    (.error "UNIQUE constraint failed: pull_requests.github_id", db)
  else if prFkOk db author_id project_id = false then
    (.error "FOREIGN KEY constraint failed", db)
  else
    match (insertedDB db (newPRRow db github_id pr_number title author_id
        project_id branch the_status repository_owner repository_name
        now)).pull_requests.find? (fun r => r.id = db.next_pr_id) with
    | some r =>
      (.ok (toView (insertedDB db (newPRRow db github_id pr_number title author_id
          project_id branch the_status repository_owner repository_name now)) r),
        insertedDB db (newPRRow db github_id pr_number title author_id
          project_id branch the_status repository_owner repository_name now))
    | none =>
      (.error "no rows returned by a query that expected to return at least one row",
        insertedDB db (newPRRow db github_id pr_number title author_id
          project_id branch the_status repository_owner repository_name now))

/- ---------- github.rs: credential manager over an idealised keychain ---------- -/

/-- GitHubUser of github.rs (the current-user payload). -/
structure GitHubUser where
  login : String
  id : Nat
  avatar_url : String
  name : Option String
  email : Option String
  company : Option String
deriving DecidableEq, Repr

/-- GitHubTokenInfo of github.rs. -/
structure GitHubTokenInfo where
  valid : Bool
  user : Option GitHubUser
  scopes : List String
  rate_limit_remaining : Option Nat
  rate_limit_total : Option Nat
deriving DecidableEq, Repr

/-- The OS keychain entry for the fixed (PRTracker, github_token) pair,
idealised as the stored secret, if any. -/
def Keychain : Type := Option String

/-- GitHubTokenManager::save_token: set_password overwrites the stored
secret and succeeds. -/
def save_token (_st : Keychain) (token : String) : (Except String Unit) × Keychain :=
  (.ok (), some token)

/-- GitHubTokenManager::get_token: get_password returns the stored secret;
a missing entry (NoEntry) is returned as Ok(None), not as an error. -/
def get_token (st : Keychain) : Except String (Option String) :=
  .ok st

/-- GitHubTokenManager::delete_token: delete_credential removes the secret;
a missing entry (NoEntry) is also treated as success. -/
def delete_token (_st : Keychain) : (Except String Unit) × Keychain :=
  (.ok (), none)

/-- GitHubTokenManager::verify_token issues one authenticated GET to the
current-user endpoint and builds a GitHubTokenInfo from the response; the
network is abstracted as an oracle from the token to that result. -/
def verify_token (oracle : String → Except String GitHubTokenInfo)
    (token : String) : Except String GitHubTokenInfo :=
  oracle token

/-- GitHubTokenManager::test_stored_token: get_token, then verify_token on
the stored token, or the all-empty invalid GitHubTokenInfo when no token is
stored (no network call is made in that case). -/
def test_stored_token (oracle : String → Except String GitHubTokenInfo)
    (st : Keychain) : Except String GitHubTokenInfo :=
  match get_token st with
  | .ok (some token) => verify_token oracle token
  | .ok none =>
    .ok { valid := false, user := none, scopes := []
          rate_limit_remaining := none, rate_limit_total := none }
  | .error e => .error e

/- ---------- lib.rs: URL parsing (the regex, modelled explicitly) ---------- -/

/-- GitHubPRUrl of lib.rs. -/
structure GitHubPRUrl where
  owner : String
  repo : String
  pr_number : Int
deriving DecidableEq, Repr

/-- The PR author data used by the ingestion glue.  In lib.rs the GitHubUser
and GitHubHead structs deserialised from the API response are converted to
PRAuthor by the identity-shaped From impl, so the three collapse to one
record here; head_ref is the branch name from the "head.ref" field. -/
structure PRAuthor where
  login : String
  avatar_url : String
  name : Option String
deriving DecidableEq, Repr

/-- GitHubPRData of lib.rs: the pull-request payload fetched from the API. -/
structure GitHubPRData where
  id : Int
  title : String
  user : PRAuthor
  head_ref : String
deriving DecidableEq, Repr

/-- GitHubPRData::author (the From conversion is the identity here). -/
def GitHubPRData.author (pd : GitHubPRData) : PRAuthor := pd.user

/-- The literal part of the regex before the first capture group:
the escaped "github\.com/" matches exactly these characters. -/
def githubLit : List Char := "github.com/".data

/-- The literal "/pull/" between the second and third capture groups. -/
def pullLit : List Char := "/pull/".data

/-- Matching a literal character sequence: returns the rest of the input on
success. -/
def stripLit : List Char → List Char → Option (List Char)
  | [], cs => some cs
  | _ :: _, [] => none
  | l :: ls, c :: cs => if c = l then stripLit ls cs else none

/-- The code-point ranges of the Unicode general category Nd
(Decimal_Number), Unicode 16.0.0.  The regex crate resolves `\d` to
`\p{Nd}` in its default Unicode mode, using the Nd table it bundles. -/
def ndRanges : List (Nat × Nat) :=
  [(0x0030, 0x0039), (0x0660, 0x0669), (0x06F0, 0x06F9), (0x07C0, 0x07C9),
   (0x0966, 0x096F), (0x09E6, 0x09EF), (0x0A66, 0x0A6F), (0x0AE6, 0x0AEF),
   (0x0B66, 0x0B6F), (0x0BE6, 0x0BEF), (0x0C66, 0x0C6F), (0x0CE6, 0x0CEF),
   (0x0D66, 0x0D6F), (0x0DE6, 0x0DEF), (0x0E50, 0x0E59), (0x0ED0, 0x0ED9),
   (0x0F20, 0x0F29), (0x1040, 0x1049), (0x1090, 0x1099), (0x17E0, 0x17E9),
   (0x1810, 0x1819), (0x1946, 0x194F), (0x19D0, 0x19D9), (0x1A80, 0x1A89),
   (0x1A90, 0x1A99), (0x1B50, 0x1B59), (0x1BB0, 0x1BB9), (0x1C40, 0x1C49),
   (0x1C50, 0x1C59), (0xA620, 0xA629), (0xA8D0, 0xA8D9), (0xA900, 0xA909),
   (0xA9D0, 0xA9D9), (0xA9F0, 0xA9F9), (0xAA50, 0xAA59), (0xABF0, 0xABF9),
   (0xFF10, 0xFF19), (0x104A0, 0x104A9), (0x10D30, 0x10D39), (0x10D40, 0x10D49),
   (0x11066, 0x1106F), (0x110F0, 0x110F9), (0x11136, 0x1113F), (0x111D0, 0x111D9),
   (0x112F0, 0x112F9), (0x11450, 0x11459), (0x114D0, 0x114D9), (0x11650, 0x11659),
   (0x116C0, 0x116C9), (0x11730, 0x11739), (0x118E0, 0x118E9), (0x11950, 0x11959),
   (0x11BF0, 0x11BF9), (0x11C50, 0x11C59), (0x11D50, 0x11D59), (0x11DA0, 0x11DA9),
   (0x11F50, 0x11F59), (0x16130, 0x16139), (0x16A60, 0x16A69), (0x16AC0, 0x16AC9),
   (0x16B50, 0x16B59), (0x16D70, 0x16D79), (0x1D7CE, 0x1D7FF), (0x1E140, 0x1E149),
   (0x1E2F0, 0x1E2F9), (0x1E4F0, 0x1E4F9), (0x1E5F1, 0x1E5FA), (0x1E950, 0x1E959),
   (0x1FBF0, 0x1FBF9)]

/-- The digit class `\d` of the regex crate: membership in the Unicode Nd
ranges. -/
def isNd (c : Char) : Bool :=
  ndRanges.any (fun p => p.1 ≤ c.toNat ∧ c.toNat ≤ p.2)

/-- One attempt of the regex `github\.com/([^/]+)/([^/]+)/pull/(\d+)` at a
fixed start position.  Both `([^/]+)` groups are greedy runs of characters
other than a slash followed by a literal that begins with a slash, so no
backtracking into them can succeed and each group captures exactly the
characters up to the next slash; `(\d+)` ends the pattern, so it captures
the maximal run of Unicode decimal digits.  Returns the two name captures
and the digit capture. -/
def matchAt (cs : List Char) : Option (String × String × List Char) :=
  match stripLit githubLit cs with
  | none => none
  | some cs1 =>
    match cs1.takeWhile (fun c => c ≠ '/') with
    | [] => none
    | o :: os =>
      match stripLit ['/'] (cs1.dropWhile (fun c => c ≠ '/')) with
      | none => none
      | some cs2 =>
        match cs2.takeWhile (fun c => c ≠ '/') with
        | [] => none
        | r :: rs =>
          match stripLit pullLit (cs2.dropWhile (fun c => c ≠ '/')) with
          | none => none
          | some cs3 =>
            match cs3.takeWhile isNd with
            | [] => none
            | d :: ds => some (⟨o :: os⟩, ⟨r :: rs⟩, d :: ds)

/-- Regex search: the leftmost start position at which the pattern matches,
as Regex::captures does. -/
def findMatch : List Char → Option (String × String × List Char)
  | [] => none
  | c :: cs =>
    match matchAt (c :: cs) with
    | some res => some res
    | none => findMatch cs

/-- Numeric value of a digit string. -/
def digitsVal (ds : List Char) : Nat :=
  ds.foldl (fun acc c => acc * 10 + (c.toNat - '0'.toNat)) 0

/-- str::parse::<i64> on the non-empty digit capture: from_str accepts only
the ASCII digits 0-9, so it fails on any other Nd digit, and it fails when
the value overflows i64. -/
def parse_i64 (ds : List Char) : Except String Int :=
  if ¬ (ds.all Char.isDigit) then .error "invalid digit found in string"
  else if digitsVal ds ≤ 9223372036854775807 then .ok (Int.ofNat (digitsVal ds))
  else .error "number too large to fit in target type"

/-- The format-error message of parse_github_pr_url. -/
def urlFormatError : String :=
  "Invalid GitHub PR URL format. Expected: https://github.com/owner/repo/pull/123"

/-- parse_github_pr_url of lib.rs: search the URL with the regex
`github\.com/([^/]+)/([^/]+)/pull/(\d+)`; no match is the format error, and
an overflowing PR number is a number error. -/
def parse_github_pr_url (url : String) : Except String GitHubPRUrl :=
  match findMatch url.data with
  | none => .error urlFormatError
  | some (o, r, ds) =>
    match parse_i64 ds with
    | .error e => .error ("Invalid PR number: " ++ e)
    | .ok n => .ok { owner := o, repo := r, pr_number := n }

/-- Declarative reading of the pattern `.../<owner>/<repo>/pull/<number>`:
somewhere in the string, the literal "github.com/" is followed by a
non-empty slash-free owner, a slash, a non-empty slash-free repo, the
literal "/pull/", and at least one Unicode decimal digit. -/
def MatchesPRPattern (s : String) : Prop :=
  ∃ a oL rL d b : List Char,
    s.data = a ++ githubLit ++ oL ++ '/' :: (rL ++ pullLit ++ d ++ b) ∧
    oL ≠ [] ∧ rL ≠ [] ∧ d ≠ [] ∧
    (∀ c ∈ oL, c ≠ '/') ∧ (∀ c ∈ rL, c ≠ '/') ∧ (∀ c ∈ d, isNd c = true)

/- ---------- lib.rs: ingestion glue ---------- -/

/-- ensure_team_member_exists of lib.rs: look the author up by username;
update avatar and display name in place when they changed; otherwise create
the member.  Returns the member id. -/
def ensure_team_member_exists (db : DB) (author : PRAuthor) (now : Int) :
    (Except String Int) × DB :=
  match get_team_member_by_username db author.login with
  | .ok (some existing_member) =>
    if existing_member.avatar_url ≠ some author.avatar_url ∨
        existing_member.display_name ≠ author.name then
      ((update_team_member_info db existing_member.id author.avatar_url
          author.name).1.map (fun _ => existing_member.id),
        (update_team_member_info db existing_member.id author.avatar_url
          author.name).2)
    else (.ok existing_member.id, db)
  | .ok none =>
    match add_team_member db author.login (some author.avatar_url) author.name now with
    | (.ok new_member, db') => (.ok new_member.id, db')
    | (.error e, db') => (.error e, db')
  | .error e => (.error e, db)

/-- The duplicate-PR message built in add_pr_from_github_url. -/
def duplicateMsg (existing_pr : PullRequest) (pr_number : Int) : String :=
  "This PR is already added to the system!\n\nPR: " ++
    existing_pr.title.getD "Untitled" ++ " (" ++ toString pr_number ++
    ")\nProject: " ++ existing_pr.project_name.getD "Unknown Project" ++
    "\nStatus: " ++ existing_pr.status

/-- The store-side part of add_pr_from_github_url of lib.rs, after the URL
has been parsed and the PR payload fetched from the API (two read-only GET
requests that do not touch the store): reject when the GitHub id is already
recorded, otherwise create-or-update the authoring team member and insert
the row with status "Waiting". -/
def add_pr_from_github_url_db (db : DB) (url_parts : GitHubPRUrl)
    (pr_data : GitHubPRData) (project_id : Int) (now : Int) :
    (Except String PullRequest) × DB :=
  match get_pull_request_by_github_id db pr_data.id with
  | .ok (some existing_pr) =>
    (.error (duplicateMsg existing_pr url_parts.pr_number), db)
  | .ok none =>
    match ensure_team_member_exists db pr_data.author now with
    | (.ok author_id, db1) =>
      add_pull_request db1 pr_data.id url_parts.pr_number (some pr_data.title)
        author_id (some project_id) (some pr_data.head_ref) "Waiting"
        (some url_parts.owner) (some url_parts.repo) now
    | (.error e, db1) => (.error e, db1)
  | .error e => (.error e, db)

/- ---------- invariants ---------- -/

/-- All project names are distinct (the UNIQUE constraint on projects.name). -/
def NamesNodup (db : DB) : Prop := (db.projects.map Project.name).Nodup

/-- All project ids are distinct (the primary key of projects). -/
def IdsNodup (db : DB) : Prop := (db.projects.map Project.id).Nodup

/-- Referential integrity of pull_requests.project_id (the foreign key that
sqlx-enabled foreign_keys enforces). -/
def RefIntegrity (db : DB) : Prop :=
  ∀ r ∈ db.pull_requests, ∀ pid, r.project_id = some pid →
    ∃ p ∈ db.projects, p.id = pid

/- ---------- sample data used by the witnesses ---------- -/

def sampleProject : Project :=
  { id := 1, name := "Frontend Core", description := some "Main React application"
    created_at := 100 }

def sampleMember : TeamMember :=
  { id := 1, github_username := "alice", avatar_url := some "https://a.test/alice.png"
    display_name := some "Alice", created_at := 50 }

def samplePRRow : PRRow :=
  { id := 1, github_id := 500, pr_number := 42, title := some "Fix crash"
    author_id := 1, project_id := some 1, last_updated_at := 60, status := "Waiting"
    branch := some "fix/crash", score := none
    repository_owner := some "acme", repository_name := some "widgets" }

def dbEmpty : DB :=
  { projects := [], team_members := [], pull_requests := [], review_history := []
    next_project_id := 1, next_member_id := 1, next_pr_id := 1 }

def dbWithPR : DB :=
  { projects := [sampleProject], team_members := [sampleMember]
    pull_requests := [samplePRRow], review_history := []
    next_project_id := 2, next_member_id := 2, next_pr_id := 2 }

def dbProjOnly : DB :=
  { projects := [sampleProject], team_members := [], pull_requests := []
    review_history := [], next_project_id := 2, next_member_id := 1, next_pr_id := 1 }

def samplePRUrlParts : GitHubPRUrl :=
  { owner := "acme", repo := "widgets", pr_number := 42 }

def freshPRUrlParts : GitHubPRUrl :=
  { owner := "acme", repo := "widgets", pr_number := 43 }

def samplePRAuthor : PRAuthor :=
  { login := "alice", avatar_url := "https://a.test/alice.png"
    name := some "Alice" }

def samplePRData : GitHubPRData :=
  { id := 500, title := "Fix crash", user := samplePRAuthor
    head_ref := "fix/crash" }

def freshPRData : GitHubPRData :=
  { id := 600, title := "Add feature", user := samplePRAuthor
    head_ref := "feat/add" }

/-- Whether an Except value is a success (Result::is_ok). -/
def exceptOk {ε α : Type} : Except ε α → Bool
  | .ok _ => true
  | .error _ => false

/- ---------- generic list lemmas used throughout ---------- -/

theorem listFindNoneOf {α : Type} (p : α → Bool) (l : List α)
    (h : ∀ a ∈ l, p a = false) : l.find? p = none := by
  refine List.find?_eq_none.mpr ?_
  intro a ha
  simp [h a ha]

theorem listFindSomeOf {α : Type} (p : α → Bool) (l : List α)
    (h : ∃ a ∈ l, p a = true) : ∃ b, l.find? p = some b ∧ p b = true := by
  have hs : (l.find? p).isSome := List.find?_isSome.mpr (by simpa using h)
  rcases Option.isSome_iff_exists.mp hs with ⟨b, hb⟩
  exact ⟨b, hb, List.find?_some hb⟩

theorem listFilterNilOf {α : Type} (p : α → Bool) (l : List α)
    (h : ∀ a ∈ l, p a = false) : l.filter p = [] := by
  refine List.filter_eq_nil_iff.mpr ?_
  intro a ha
  simp [h a ha]

theorem listFilterSelfOf {α : Type} (p : α → Bool) (l : List α)
    (h : ∀ a ∈ l, p a = true) : l.filter p = l := by
  induction l with
  | nil => rfl
  | cons a t ih =>
    have ha : p a = true := h a (List.mem_cons_self a t)
    have ht : t.filter p = t := ih (fun b hb => h b (List.mem_cons_of_mem a hb))
    simp [List.filter_cons, ha, ht]

theorem listMapSelfOf {α : Type} (f : α → α) (l : List α)
    (h : ∀ a ∈ l, f a = a) : l.map f = l := by
  induction l with
  | nil => rfl
  | cons a t ih =>
    have ha : f a = a := h a (List.mem_cons_self a t)
    have ht : t.map f = t := ih (fun b hb => h b (List.mem_cons_of_mem a hb))
    simp [ha, ht]

theorem listAnyFalseOf {α : Type} (p : α → Bool) (l : List α)
    (h : ∀ a ∈ l, p a = false) : l.any p = false := by
  simp only [List.any_eq_false]
  intro a ha
  simp [h a ha]

theorem listNodupConcat {α : Type} {l : List α} {a : α}
    (h : l.Nodup) (ha : a ∉ l) : (l ++ [a]).Nodup := by
  refine List.nodup_append.mpr ⟨h, List.nodup_singleton a, ?_⟩
  intro x hx hxa
  rcases List.mem_singleton.mp hxa with rfl
  exact ha hx

/- ---------- further list lemmas ---------- -/

theorem listFindAppendOfNone {α : Type} (p : α → Bool) (l1 l2 : List α)
    (h : l1.find? p = none) : (l1 ++ l2).find? p = l2.find? p := by
  induction l1 with
  | nil => rfl
  | cons a t ih =>
    cases hpa : p a with
    | true =>
      have : (a :: t).find? p = some a := by simp [List.find?, hpa]
      rw [this] at h
      cases h
    | false =>
      have hh : t.find? p = none := by
        have he : (a :: t).find? p = t.find? p := by simp [List.find?, hpa]
        rwa [he] at h
      have : ((a :: t) ++ l2).find? p = (t ++ l2).find? p := by
        simp [List.cons_append, List.find?, hpa]
      rw [this]
      exact ih hh

theorem listMapNodupInj {α β : Type} {f : α → β} :
    ∀ {l : List α}, (l.map f).Nodup → ∀ a ∈ l, ∀ b ∈ l, f a = f b → a = b := by
  intro l
  induction l with
  | nil => intro _ a ha; cases ha
  | cons x t ih =>
    intro h a ha b hb he
    simp only [List.map_cons] at h
    rcases List.nodup_cons.mp h with ⟨hx, ht⟩
    rcases List.mem_cons.mp ha with rfl | hat <;> rcases List.mem_cons.mp hb with rfl | hbt
    · rfl
    · exact absurd (he ▸ List.mem_map_of_mem f hbt) hx
    · exact absurd (he ▸ List.mem_map_of_mem f hat) (fun hc => hx hc)
    · exact ih ht a hat b hbt he

/- ---------- claims ---------- -/

/-- Claim C8: saving a token and then reading it returns exactly the saved
string; after delete_token, get_token returns a successful absent result
(Ok None), and delete_token also succeeds on an empty keychain. -/
theorem claim_c8 (st : Keychain) (token : String) :
    get_token (save_token st token).2 = .ok (some token) ∧
    get_token (delete_token st).2 = .ok none ∧
    delete_token none = (.ok (), none) :=
  ⟨rfl, rfl, rfl⟩

/-- Claim C9: test_stored_token is the composition of get_token and
verify_token: with a stored token it returns exactly verify_token of that
token, and with no stored token it returns the invalid, empty
GitHubTokenInfo without consulting the network oracle (the result does not
depend on the oracle). -/
theorem claim_c9 (oracle o2 : String → Except String GitHubTokenInfo)
    (token : String) :
    test_stored_token oracle (some token) = verify_token oracle token ∧
    test_stored_token oracle none =
      .ok { valid := false, user := none, scopes := []
            rate_limit_remaining := none, rate_limit_total := none } ∧
    test_stored_token oracle none = test_stored_token o2 none :=
  ⟨rfl, rfl, rfl⟩

/-- Claim C10: for a pull-request row id absent from the store, the three
point updates update_pr_status, update_pr_score and update_pr_project all
return success and leave the whole store (every row of every table)
unchanged. -/
theorem claim_c10 (db : DB) (pr_id : Int)
    (h : ∀ r ∈ db.pull_requests, r.id ≠ pr_id) :
    (∀ s, update_pr_status db pr_id s = (.ok (), db)) ∧
    (∀ sc, update_pr_score db pr_id sc = (.ok (), db)) ∧
    (∀ pid, update_pr_project db pr_id pid = (.ok (), db)) := by
  have hany : db.pull_requests.any (fun r => r.id = pr_id) = false :=
    listAnyFalseOf _ _ (fun r hr => by simp [h r hr])
  refine ⟨?_, ?_, ?_⟩
  · intro s
    have hmap : db.pull_requests.map
        (fun r => if r.id = pr_id then { r with status := s } else r) =
        db.pull_requests :=
      listMapSelfOf _ _ (fun r hr => by simp [h r hr])
    unfold update_pr_status
    rw [hmap]
  · intro sc
    have hmap : db.pull_requests.map
        (fun r => if r.id = pr_id then { r with score := some sc } else r) =
        db.pull_requests :=
      listMapSelfOf _ _ (fun r hr => by simp [h r hr])
    unfold update_pr_score
    rw [hmap]
  · intro pid
    have hmap : db.pull_requests.map
        (fun r => if r.id = pr_id then { r with project_id := some pid } else r) =
        db.pull_requests :=
      listMapSelfOf _ _ (fun r hr => by simp [h r hr])
    unfold update_pr_project
    rw [if_neg]
    · rw [hmap]
    · intro hc
      rw [hany] at hc
      exact absurd hc.1 (by simp)

/-- Witness for claim C10 at a store holding one pull request with id 1 and
the absent id 7. -/
theorem claim_c10_witness :
    (∀ s, update_pr_status dbWithPR 7 s = (.ok (), dbWithPR)) ∧
    (∀ sc, update_pr_score dbWithPR 7 sc = (.ok (), dbWithPR)) ∧
    (∀ pid, update_pr_project dbWithPR 7 pid = (.ok (), dbWithPR)) :=
  claim_c10 dbWithPR 7 (by decide)

/-- Claim C5: for an id absent from projects, get_project_by_id returns
Ok None; for a GitHub id absent from pull_requests,
get_pull_request_by_github_id returns Ok None; delete_project on the absent
project id returns the explicit "Project not found" error and leaves the
store unchanged (referential integrity rules out referencing rows). -/
theorem claim_c5 (db : DB) (id gid : Int)
    (h1 : ∀ p ∈ db.projects, p.id ≠ id)
    (h2 : ∀ r ∈ db.pull_requests, r.github_id ≠ gid)
    (hfk : RefIntegrity db) :
    get_project_by_id db id = .ok none ∧
    get_pull_request_by_github_id db gid = .ok none ∧
    (delete_project db id).1 = .error "Project not found" ∧
    (delete_project db id).2 = db := by
  have hfind1 : db.projects.find? (fun p => p.id = id) = none :=
    listFindNoneOf _ _ (fun p hp => by simp [h1 p hp])
  have hfind2 : db.pull_requests.find? (fun r => r.github_id = gid) = none :=
    listFindNoneOf _ _ (fun r hr => by simp [h2 r hr])
  have hcnt : refCount db id = 0 := by
    unfold refCount
    rw [listFilterNilOf _ _ ?_]
    · rfl
    · intro r hr
      simp only [decide_eq_false_iff_not]
      intro hpr
      rcases hfk r hr id hpr with ⟨p, hp, hpid⟩
      exact h1 p hp hpid
  have hkeep : db.projects.filter (fun p => !decide (p.id = id)) = db.projects :=
    listFilterSelfOf _ _ (fun p hp => by simp [h1 p hp])
  have haff : (db.projects.filter (fun p => p.id = id)).length = 0 := by
    rw [listFilterNilOf _ _ (fun p hp => by simp [h1 p hp])]
    rfl
  have hdel : delete_project db id = (.error "Project not found", db) := by
    unfold delete_project
    rw [hcnt]
    simp [haff, hkeep]
  refine ⟨?_, ?_, ?_, ?_⟩
  · unfold get_project_by_id
    rw [hfind1]
  · unfold get_pull_request_by_github_id
    rw [hfind2]
    rfl
  · rw [hdel]
  · rw [hdel]

/-- Witness for claim C5 at the empty store with absent ids. -/
theorem claim_c5_witness :
    get_project_by_id dbEmpty 3 = .ok none ∧
    get_pull_request_by_github_id dbEmpty 900 = .ok none ∧
    (delete_project dbEmpty 3).1 = .error "Project not found" ∧
    (delete_project dbEmpty 3).2 = dbEmpty :=
  claim_c5 dbEmpty 3 900 (by intro p hp; cases hp) (by intro r hr; cases hr)
    (by intro r hr; cases hr)

/-- Claim C3: get_or_create_team_member is idempotent: when the store holds
at most one row with the given username (the UNIQUE constraint), two calls
in sequence both succeed with the same member id, and after the second call
the team_members table holds exactly one row with that username. -/
theorem claim_c3 (db : DB) (username : String) (t1 t2 : Int)
    (h : (db.team_members.filter (fun m => m.github_username = username)).length ≤ 1) :
    ∃ m1 m2,
      (get_or_create_team_member db username t1).1 = .ok m1 ∧
      (get_or_create_team_member (get_or_create_team_member db username t1).2
        username t2).1 = .ok m2 ∧
      m1.id = m2.id ∧
      ((get_or_create_team_member (get_or_create_team_member db username t1).2
        username t2).2.team_members.filter
          (fun m => m.github_username = username)).length = 1 := by
  cases hf : db.team_members.find? (fun m => m.github_username = username) with
  | some m =>
    have hr1 : get_or_create_team_member db username t1 = (.ok m, db) := by
      unfold get_or_create_team_member
      rw [hf]
    have hr2 : get_or_create_team_member db username t2 = (.ok m, db) := by
      unfold get_or_create_team_member
      rw [hf]
    refine ⟨m, m, ?_, ?_, rfl, ?_⟩
    · simp only [hr1]
    · simp only [hr1, hr2]
    · simp only [hr1, hr2]
      have hm : m ∈ db.team_members := List.mem_of_find?_eq_some hf
      have hpm := List.find?_some hf
      have hmf : m ∈ db.team_members.filter (fun m => m.github_username = username) :=
        List.mem_filter.mpr ⟨hm, hpm⟩
      have hpos : 0 < (db.team_members.filter
          (fun m => m.github_username = username)).length :=
        List.length_pos_of_mem hmf
      omega
  | none =>
    have hall : ∀ m ∈ db.team_members,
        (fun m => decide (m.github_username = username)) m = false := by
      intro m hm
      simpa using List.find?_eq_none.mp hf m hm
    have hr1 : get_or_create_team_member db username t1 =
        (.ok { id := db.next_member_id, github_username := username, avatar_url := none, display_name := none, created_at := t1 },
         { db with team_members := db.team_members ++ [{ id := db.next_member_id, github_username := username, avatar_url := none, display_name := none, created_at := t1 }], next_member_id := db.next_member_id + 1 }) := by
      unfold get_or_create_team_member
      rw [hf]
    have hf2 : (db.team_members ++ [({ id := db.next_member_id, github_username := username, avatar_url := none, display_name := none, created_at := t1 } : TeamMember)]).find?
        (fun m => m.github_username = username) =
        some { id := db.next_member_id, github_username := username, avatar_url := none, display_name := none, created_at := t1 } := by
      rw [listFindAppendOfNone _ _ _ hf]
      simp [List.find?]
    refine ⟨{ id := db.next_member_id, github_username := username, avatar_url := none, display_name := none, created_at := t1 },
      { id := db.next_member_id, github_username := username, avatar_url := none, display_name := none, created_at := t1 }, ?_, ?_, rfl, ?_⟩
    · simp only [hr1]
    · simp only [hr1]
      unfold get_or_create_team_member
      simp only [hf2]
    · simp only [hr1]
      unfold get_or_create_team_member
      simp only [hf2]
      simp only [List.filter_append]
      rw [listFilterNilOf _ _ hall]
      simp [List.filter]

/-- Witness for claim C3 at the empty store. -/
theorem claim_c3_witness :
    ∃ m1 m2,
      (get_or_create_team_member dbEmpty "alice" 1).1 = .ok m1 ∧
      (get_or_create_team_member (get_or_create_team_member dbEmpty "alice" 1).2
        "alice" 2).1 = .ok m2 ∧
      m1.id = m2.id ∧
      ((get_or_create_team_member (get_or_create_team_member dbEmpty "alice" 1).2
        "alice" 2).2.team_members.filter
          (fun m => m.github_username = "alice")).length = 1 :=
  claim_c3 dbEmpty "alice" 1 2 (by decide)

/- ---------- ingestion lemmas and claims C2, C6 ---------- -/

theorem add_team_member_preserves_prs (db : DB) (u : String)
    (av dn : Option String) (now : Int) :
    (add_team_member db u av dn now).2.pull_requests = db.pull_requests := by
  unfold add_team_member
  split <;> rfl

theorem ensure_preserves_prs (db : DB) (author : PRAuthor) (now : Int) :
    (ensure_team_member_exists db author now).2.pull_requests = db.pull_requests := by
  unfold ensure_team_member_exists
  unfold get_team_member_by_username
  cases hf : db.team_members.find? (fun m => m.github_username = author.login) with
  | some m =>
    simp only [hf]
    split
    · rfl
    · rfl
  | none =>
    simp only [hf]
    cases hadd : add_team_member db author.login (some author.avatar_url) author.name now with
    | mk e db2 =>
      have hp : db2.pull_requests = db.pull_requests := by
        have h := add_team_member_preserves_prs db author.login (some author.avatar_url)
          author.name now
        rw [hadd] at h
        exact h
      cases e with
      | ok nm => simpa using hp
      | error e => simpa using hp

theorem add_pull_request_inserts (db : DB) (gid pn : Int) (title : Option String)
    (aid : Int) (pid : Option Int) (br : Option String) (st : String)
    (ro rn : Option String) (now : Int)
    (h : exceptOk (add_pull_request db gid pn title aid pid br st ro rn now).1 = true) :
    ∃ row, (add_pull_request db gid pn title aid pid br st ro rn now).2.pull_requests =
      db.pull_requests ++ [row] ∧ row.status = st := by
  unfold add_pull_request at h ⊢
  by_cases hdup : (db.pull_requests.any fun r => r.github_id = gid) = true
  · rw [if_pos hdup] at h
    simp [exceptOk] at h
  · rw [if_neg hdup] at h ⊢
    by_cases hfk : prFkOk db aid pid = false
    · rw [if_pos hfk] at h
      simp [exceptOk] at h
    · rw [if_neg hfk]
      refine ⟨newPRRow db gid pn title aid pid br st ro rn now, ?_, rfl⟩
      split <;> rfl

/-- Claim C2: when a pull request with the same GitHub id is already
recorded, the ingestion operation returns an error and performs no write:
the whole store, in particular the pull_requests and team_members tables,
is unchanged (the duplicate check runs before the team-member upsert and
the insert). -/
theorem claim_c2 (db : DB) (up : GitHubPRUrl) (pd : GitHubPRData)
    (project_id now : Int)
    (h : ∃ r ∈ db.pull_requests, r.github_id = pd.id) :
    (∃ e, (add_pr_from_github_url_db db up pd project_id now).1 = .error e) ∧
    (add_pr_from_github_url_db db up pd project_id now).2 = db ∧
    (add_pr_from_github_url_db db up pd project_id now).2.pull_requests =
      db.pull_requests ∧
    (add_pr_from_github_url_db db up pd project_id now).2.team_members =
      db.team_members := by
  obtain ⟨r0, hf, _⟩ := listFindSomeOf (fun r => r.github_id = pd.id) db.pull_requests
    (by rcases h with ⟨r, hr, he⟩; exact ⟨r, hr, by simp [he]⟩)
  have hg : get_pull_request_by_github_id db pd.id = .ok (some (toView db r0)) := by
    unfold get_pull_request_by_github_id
    rw [hf]
    rfl
  unfold add_pr_from_github_url_db
  rw [hg]
  exact ⟨⟨_, rfl⟩, rfl, rfl, rfl⟩

/-- Witness for claim C2: a store already holding the pull request with
GitHub id 500. -/
theorem claim_c2_witness :
    (∃ e, (add_pr_from_github_url_db dbWithPR samplePRUrlParts samplePRData
      1 70).1 = .error e) ∧
    (add_pr_from_github_url_db dbWithPR samplePRUrlParts samplePRData 1 70).2 =
      dbWithPR ∧
    (add_pr_from_github_url_db dbWithPR samplePRUrlParts samplePRData
      1 70).2.pull_requests = dbWithPR.pull_requests ∧
    (add_pr_from_github_url_db dbWithPR samplePRUrlParts samplePRData
      1 70).2.team_members = dbWithPR.team_members :=
  claim_c2 dbWithPR samplePRUrlParts samplePRData 1 70
    ⟨samplePRRow, by decide, by decide⟩

/-- Claim C6: whenever the ingestion operation succeeds, the store gains
exactly one pull_requests row, appended at the end, and that stored row has
the default "Waiting" lifecycle status, regardless of the fetched remote
state. -/
theorem claim_c6 (db : DB) (up : GitHubPRUrl) (pd : GitHubPRData)
    (project_id now : Int)
    (h : exceptOk (add_pr_from_github_url_db db up pd project_id now).1 = true) :
    ∃ row, (add_pr_from_github_url_db db up pd project_id now).2.pull_requests =
      db.pull_requests ++ [row] ∧ row.status = "Waiting" := by
  rcases hg2 : get_pull_request_by_github_id db pd.id with e | og
  · exact absurd hg2 (by unfold get_pull_request_by_github_id; intro hc; cases hc)
  rcases og with _ | x
  · have hres : add_pr_from_github_url_db db up pd project_id now =
        (match ensure_team_member_exists db pd.author now with
         | (.ok author_id, db1) =>
           add_pull_request db1 pd.id up.pr_number (some pd.title) author_id
             (some project_id) (some pd.head_ref) "Waiting" (some up.owner)
             (some up.repo) now
         | (.error e, db1) => (.error e, db1)) := by
      unfold add_pr_from_github_url_db
      rw [hg2]
    rw [hres] at h ⊢
    cases hens : ensure_team_member_exists db pd.author now with
    | mk e db1 =>
      cases e with
      | error e2 =>
        rw [hens] at h
        exact Bool.noConfusion h
      | ok author_id =>
        rw [hens] at h
        have hdb1 : db1.pull_requests = db.pull_requests := by
          have hp := ensure_preserves_prs db pd.author now
          rw [hens] at hp
          exact hp
        have h2 : exceptOk (add_pull_request db1 pd.id up.pr_number
            (some pd.title) author_id (some project_id) (some pd.head_ref)
            "Waiting" (some up.owner) (some up.repo) now).1 = true := h
        obtain ⟨row, hrow, hst⟩ := add_pull_request_inserts db1 pd.id up.pr_number
          (some pd.title) author_id (some project_id) (some pd.head_ref) "Waiting"
          (some up.owner) (some up.repo) now h2
        exact ⟨row, by rw [← hdb1]; exact hrow, hst⟩
  · have hres : add_pr_from_github_url_db db up pd project_id now =
        (.error (duplicateMsg x up.pr_number), db) := by
      unfold add_pr_from_github_url_db
      rw [hg2]
    rw [hres] at h
    exact Bool.noConfusion h

/-- Witness for claim C6: ingesting a fresh pull request (GitHub id 600)
into a store that already holds project 1 and author alice. -/
theorem claim_c6_witness :
    ∃ row, (add_pr_from_github_url_db dbWithPR freshPRUrlParts freshPRData
      1 80).2.pull_requests = dbWithPR.pull_requests ++ [row] ∧
      row.status = "Waiting" :=
  claim_c6 dbWithPR freshPRUrlParts freshPRData 1 80 (by decide)

/- ---------- claim C1: delete_project ---------- -/

/-- Claim C1: delete_project on a project with at least one referencing pull
request fails with an error message carrying the count of referencing pull
requests and leaves the whole store, in particular the project row,
unchanged; on an existing project with zero referencing pull requests it
succeeds and removes exactly that row (with distinct primary-key ids). -/
theorem claim_c1 (db : DB) (id : Int) :
    (0 < refCount db id →
      (∃ a b, (delete_project db id).1 = .error (a ++ toString (refCount db id) ++ b)) ∧
      (delete_project db id).2 = db) ∧
    (refCount db id = 0 →
      ∀ p ∈ db.projects, p.id = id → IdsNodup db →
        (delete_project db id).1 = .ok () ∧
        p ∉ (delete_project db id).2.projects ∧
        (∀ q ∈ db.projects, q ≠ p → q ∈ (delete_project db id).2.projects)) := by
  constructor
  · intro h
    unfold delete_project
    rw [if_pos h]
    exact ⟨⟨"Cannot delete project: ",
      " pull requests are assigned to this project. Please reassign them first.",
      rfl⟩, rfl⟩
  · intro hcnt p hp hpid hids
    have hnlt : ¬ 0 < refCount db id := by omega
    have hmf : p ∈ db.projects.filter (fun q => q.id = id) :=
      List.mem_filter.mpr ⟨hp, by simp [hpid]⟩
    have haff : ¬ (db.projects.filter (fun q => q.id = id)).length = 0 := by
      have hpos := List.length_pos_of_mem hmf
      omega
    have hdel : delete_project db id =
        (.ok (), { db with projects := db.projects.filter (fun q => ¬ q.id = id) }) := by
      unfold delete_project
      rw [if_neg hnlt, if_neg haff]
    rw [hdel]
    refine ⟨rfl, ?_, ?_⟩
    · intro hmem
      have hq := (List.mem_filter.mp hmem).2
      simp [hpid] at hq
    · intro q hq hne
      refine List.mem_filter.mpr ⟨hq, ?_⟩
      simp only [decide_eq_true_eq]
      intro hqid
      exact hne (listMapNodupInj hids q hq p hp (by rw [hqid, hpid]))

/-- Witness for claim C1: deleting project 1 fails on a store where one pull
request references it, and succeeds and removes the row on a store with no
pull requests. -/
theorem claim_c1_witness :
    (∃ a b, (delete_project dbWithPR 1).1 = .error (a ++ toString (refCount dbWithPR 1) ++ b)) ∧
    (delete_project dbWithPR 1).2 = dbWithPR ∧
    (delete_project dbProjOnly 1).1 = .ok () ∧
    sampleProject ∉ (delete_project dbProjOnly 1).2.projects := by
  have h1 := (claim_c1 dbWithPR 1).1 (by decide)
  have h2 := (claim_c1 dbProjOnly 1).2 (by decide) sampleProject (by decide)
    (by decide) (by unfold IdsNodup; decide)
  exact ⟨h1.1, h1.2, h2.1, h2.2.1⟩

/- ---------- claim C7: project-name uniqueness ---------- -/

theorem nodupNamesMapUpdate (id : Int) (nm : String) (d : Option String) :
    ∀ l : List Project, (l.map Project.id).Nodup → (l.map Project.name).Nodup →
      (∀ q ∈ l, q.id ≠ id → q.name ≠ nm) →
      ((l.map (fun p =>
        if p.id = id then { p with name := nm, description := d } else p)).map
          Project.name).Nodup := by
  intro l
  induction l with
  | nil =>
    intro _ _ _
    simp
  | cons x t ih =>
    intro hids hnames hfresh
    simp only [List.map_cons] at hids hnames ⊢
    rcases List.nodup_cons.mp hids with ⟨hxid, htids⟩
    rcases List.nodup_cons.mp hnames with ⟨hxn, htnames⟩
    have hfresh2 : ∀ q ∈ t, q.id ≠ id → q.name ≠ nm :=
      fun q hq => hfresh q (List.mem_cons_of_mem x hq)
    by_cases hx : x.id = id
    · rw [if_pos hx]
      have htid : ∀ q ∈ t, q.id ≠ id := by
        intro q hq he
        apply hxid
        rw [hx, ← he]
        exact List.mem_map_of_mem Project.id hq
      have hmapid : t.map (fun p =>
          if p.id = id then { p with name := nm, description := d } else p) = t :=
        listMapSelfOf _ _ (fun q hq => by rw [if_neg (htid q hq)])
      rw [hmapid]
      refine List.nodup_cons.mpr ⟨?_, htnames⟩
      intro hmem
      rcases List.mem_map.mp hmem with ⟨q, hq, hqn⟩
      exact hfresh2 q hq (htid q hq) hqn
    · rw [if_neg hx]
      refine List.nodup_cons.mpr ⟨?_, ih htids htnames hfresh2⟩
      intro hmem
      rcases List.mem_map.mp hmem with ⟨q2, hq2, hq2n⟩
      rcases List.mem_map.mp hq2 with ⟨q, hq, rfl⟩
      by_cases hqid : q.id = id
      · rw [if_pos hqid] at hq2n
        exact hfresh x (List.mem_cons_self x t) hx (by simpa using hq2n.symm)
      · rw [if_neg hqid] at hq2n
        exact hxn (hq2n ▸ List.mem_map_of_mem Project.name hq)

theorem add_team_member_preserves_projects (db : DB) (u : String)
    (av dn : Option String) (now : Int) :
    (add_team_member db u av dn now).2.projects = db.projects := by
  unfold add_team_member
  split <;> rfl

theorem ensure_preserves_projects (db : DB) (author : PRAuthor) (now : Int) :
    (ensure_team_member_exists db author now).2.projects = db.projects := by
  unfold ensure_team_member_exists
  unfold get_team_member_by_username
  cases hf : db.team_members.find? (fun m => m.github_username = author.login) with
  | some m =>
    simp only [hf]
    split
    · rfl
    · rfl
  | none =>
    simp only [hf]
    cases hadd : add_team_member db author.login (some author.avatar_url) author.name now with
    | mk e db2 =>
      have hp : db2.projects = db.projects := by
        have h0 := add_team_member_preserves_projects db author.login
          (some author.avatar_url) author.name now
        rw [hadd] at h0
        exact h0
      cases e with
      | ok nm => simpa using hp
      | error e => simpa using hp

theorem add_pull_request_preserves_projects (db : DB) (gid pn : Int)
    (title : Option String) (aid : Int) (pid : Option Int) (br : Option String)
    (st : String) (ro rn : Option String) (now : Int) :
    (add_pull_request db gid pn title aid pid br st ro rn now).2.projects =
      db.projects := by
  unfold add_pull_request
  split
  · rfl
  · split
    · rfl
    · split <;> rfl

theorem add_pr_from_github_url_preserves_projects (db : DB) (up : GitHubPRUrl)
    (pd : GitHubPRData) (project_id now : Int) :
    (add_pr_from_github_url_db db up pd project_id now).2.projects =
      db.projects := by
  rcases hg2 : get_pull_request_by_github_id db pd.id with e | og
  · exact absurd hg2 (by unfold get_pull_request_by_github_id; intro hc; cases hc)
  rcases og with _ | x
  · have hres : add_pr_from_github_url_db db up pd project_id now =
        (match ensure_team_member_exists db pd.author now with
         | (.ok author_id, db1) =>
           add_pull_request db1 pd.id up.pr_number (some pd.title) author_id
             (some project_id) (some pd.head_ref) "Waiting" (some up.owner)
             (some up.repo) now
         | (.error e, db1) => (.error e, db1)) := by
      unfold add_pr_from_github_url_db
      rw [hg2]
    rw [hres]
    cases hens : ensure_team_member_exists db pd.author now with
    | mk e db1 =>
      have hp : db1.projects = db.projects := by
        have h0 := ensure_preserves_projects db pd.author now
        rw [hens] at h0
        exact h0
      cases e with
      | ok author_id =>
        have h1 := add_pull_request_preserves_projects db1 pd.id up.pr_number
          (some pd.title) author_id (some project_id) (some pd.head_ref) "Waiting"
          (some up.owner) (some up.repo) now
        exact h1.trans hp
      | error e2 => exact hp
  · have hres : add_pr_from_github_url_db db up pd project_id now =
        (.error (duplicateMsg x up.pr_number), db) := by
      unfold add_pr_from_github_url_db
      rw [hg2]
    rw [hres]

/-- Claim C7: project-name uniqueness as an invariant.  Adding a project
whose name is already present errors and leaves the store unchanged; the
operations that write the projects table (add, delete, update) preserve
distinctness of the names, and every other store-mutating operation —
the pull-request point updates, both team-member writers (used by the
ingestion path), the pull-request insert, the team-member upsert and the
whole ingestion composite — leaves the projects table unchanged, so no
reachable state holds two projects with the same name. -/
theorem claim_c7 (db : DB) (name : String) (desc : Option String) (t : Int) :
    ((∃ p ∈ db.projects, p.name = name) →
      (∃ e, (add_project db name desc t).1 = .error e) ∧
      (add_project db name desc t).2 = db) ∧
    (NamesNodup db → NamesNodup (add_project db name desc t).2) ∧
    (∀ id, NamesNodup db → NamesNodup (delete_project db id).2) ∧
    (∀ id, IdsNodup db → NamesNodup db → NamesNodup (update_project db id name desc).2) ∧
    (∀ pid s, (update_pr_status db pid s).2.projects = db.projects) ∧
    (∀ pid sc, (update_pr_score db pid sc).2.projects = db.projects) ∧
    (∀ pid prj, (update_pr_project db pid prj).2.projects = db.projects) ∧
    (∀ u t2, (get_or_create_team_member db u t2).2.projects = db.projects) ∧
    (∀ (u : String) (av dn : Option String) (t2 : Int),
      (add_team_member db u av dn t2).2.projects = db.projects) ∧
    (∀ (mid : Int) (av2 : String) (dn : Option String),
      (update_team_member_info db mid av2 dn).2.projects = db.projects) ∧
    (∀ (gid pn : Int) (ttl : Option String) (aid : Int) (pid : Option Int)
      (br : Option String) (st2 : String) (ro rn : Option String) (t2 : Int),
      (add_pull_request db gid pn ttl aid pid br st2 ro rn t2).2.projects =
        db.projects) ∧
    (∀ (author : PRAuthor) (t2 : Int),
      (ensure_team_member_exists db author t2).2.projects = db.projects) ∧
    (∀ (up : GitHubPRUrl) (pd : GitHubPRData) (pid2 t2 : Int),
      (add_pr_from_github_url_db db up pd pid2 t2).2.projects = db.projects) := by
  refine ⟨?_, ?_, ?_, ?_, ?_, ?_, ?_, ?_, ?_, ?_, ?_, ?_, ?_⟩
  · intro h
    rcases h with ⟨p, hp, hpn⟩
    have hany : db.projects.any (fun q => q.name = name) = true :=
      List.any_eq_true.mpr ⟨p, hp, by simp [hpn]⟩
    unfold add_project
    rw [if_pos hany]
    exact ⟨⟨_, rfl⟩, rfl⟩
  · intro hn
    unfold add_project
    by_cases hany : db.projects.any (fun q => q.name = name) = true
    · rw [if_pos hany]
      exact hn
    · rw [if_neg hany]
      have hfresh : name ∉ db.projects.map Project.name := by
        intro hmem
        rcases List.mem_map.mp hmem with ⟨q, hq, hqn⟩
        exact hany (List.any_eq_true.mpr ⟨q, hq, by simp [hqn]⟩)
      show ((db.projects ++
        [({ id := db.next_project_id, name := name, description := desc
            created_at := t } : Project)]).map Project.name).Nodup
      rw [List.map_append]
      exact listNodupConcat hn hfresh
  · intro id hn
    have hsub : ∀ q : Project → Bool,
        ((db.projects.filter q).map Project.name).Nodup := by
      intro q
      exact List.Nodup.sublist ((List.filter_sublist db.projects).map Project.name) hn
    simp only [delete_project]
    split
    · exact hn
    · split
      · exact hsub _
      · exact hsub _
  · intro id hids hn
    simp only [update_project]
    split
    · exact hn
    next hcond =>
      have hnn : ((db.projects.map (fun p =>
          if p.id = id then { p with name := name, description := desc } else p)).map
            Project.name).Nodup := by
        by_cases hA : db.projects.any (fun p => p.id = id) = true
        · have hB : ¬ db.projects.any
              (fun q => decide (q.id ≠ id ∧ q.name = name)) = true :=
            fun hB => hcond ⟨hA, hB⟩
          have hfresh : ∀ q ∈ db.projects, q.id ≠ id → q.name ≠ name := by
            intro q hq hqid hqn
            exact hB (List.any_eq_true.mpr ⟨q, hq, by simp [hqid, hqn]⟩)
          exact nodupNamesMapUpdate id name desc db.projects hids hn hfresh
        · have hnone : ∀ q ∈ db.projects, q.id ≠ id := by
            intro q hq he
            exact hA (List.any_eq_true.mpr ⟨q, hq, by simp [he]⟩)
          have hmap : db.projects.map (fun p =>
              if p.id = id then { p with name := name, description := desc } else p) =
              db.projects :=
            listMapSelfOf _ _ (fun q hq => by rw [if_neg (hnone q hq)])
          rw [hmap]
          exact hn
      split
      · exact hnn
      · exact hnn
  · intro pid s
    rfl
  · intro pid sc
    rfl
  · intro pid prj
    unfold update_pr_project
    split <;> rfl
  · intro u t2
    unfold get_or_create_team_member
    split <;> rfl
  · intro u av dn t2
    exact add_team_member_preserves_projects db u av dn t2
  · intro mid av2 dn
    rfl
  · intro gid pn ttl aid pid br st2 ro rn t2
    exact add_pull_request_preserves_projects db gid pn ttl aid pid br st2 ro rn t2
  · intro author t2
    exact ensure_preserves_projects db author t2
  · intro up pd pid2 t2
    exact add_pr_from_github_url_preserves_projects db up pd pid2 t2

/-- Witness for claim C7: a duplicate name is rejected without change, and
renaming project 1 keeps the names distinct. -/
theorem claim_c7_witness :
    (∃ e, (add_project dbWithPR "Frontend Core" none 5).1 = .error e) ∧
    (add_project dbWithPR "Frontend Core" none 5).2 = dbWithPR ∧
    NamesNodup (update_project dbWithPR 1 "Frontend Core" none).2 := by
  have h := claim_c7 dbWithPR "Frontend Core" none 5
  refine ⟨(h.1 ⟨sampleProject, by decide, by decide⟩).1,
    (h.1 ⟨sampleProject, by decide, by decide⟩).2, ?_⟩
  exact h.2.2.2.1 1 (by unfold IdsNodup; decide) (by unfold NamesNodup; decide)

/- ---------- claim C4: the URL parser ---------- -/

theorem stripLit_eq : ∀ (ls cs cs2 : List Char),
    stripLit ls cs = some cs2 → cs = ls ++ cs2 := by
  intro ls
  induction ls with
  | nil =>
    intro cs cs2 h
    have h2 : cs = cs2 := Option.some.inj h
    rw [h2]
    rfl
  | cons l ls ih =>
    intro cs cs2 h
    cases cs with
    | nil => cases h
    | cons c ct =>
      unfold stripLit at h
      by_cases hc : c = l
      · rw [if_pos hc] at h
        rw [hc, ih ct cs2 h, List.cons_append]
      · rw [if_neg hc] at h
        cases h

theorem matchAt_sound {cs : List Char} {o r : String} {d : List Char}
    (h : matchAt cs = some (o, r, d)) :
    ∃ oL rL b : List Char,
      cs = githubLit ++ (oL ++ ('/' :: (rL ++ (pullLit ++ (d ++ b))))) ∧
      oL ≠ [] ∧ rL ≠ [] ∧ d ≠ [] ∧
      (∀ c ∈ oL, c ≠ '/') ∧ (∀ c ∈ rL, c ≠ '/') ∧ (∀ c ∈ d, isNd c = true) := by
  unfold matchAt at h
  split at h
  · cases h
  rename_i cs1 h1
  split at h
  · cases h
  rename_i o1 os h2
  split at h
  · cases h
  rename_i cs2 h3
  split at h
  · cases h
  rename_i r1 rs h4
  split at h
  · cases h
  rename_i cs3 h5
  split at h
  · cases h
  rename_i d1 ds h6
  simp only [Option.some.injEq, Prod.mk.injEq] at h
  obtain ⟨ho, hr, hd⟩ := h
  have e1 : cs = githubLit ++ cs1 := stripLit_eq _ _ _ h1
  have e2 : cs1 = (o1 :: os) ++ cs1.dropWhile (fun c => c ≠ '/') := by
    conv_lhs => rw [← List.takeWhile_append_dropWhile (p := fun c => c ≠ '/') (l := cs1)]
    rw [h2]
  have e3 : cs1.dropWhile (fun c => c ≠ '/') = '/' :: cs2 := stripLit_eq _ _ _ h3
  have e4 : cs2 = (r1 :: rs) ++ cs2.dropWhile (fun c => c ≠ '/') := by
    conv_lhs => rw [← List.takeWhile_append_dropWhile (p := fun c => c ≠ '/') (l := cs2)]
    rw [h4]
  have e5 : cs2.dropWhile (fun c => c ≠ '/') = pullLit ++ cs3 := stripLit_eq _ _ _ h5
  have e6 : cs3 = (d1 :: ds) ++ cs3.dropWhile isNd := by
    conv_lhs => rw [← List.takeWhile_append_dropWhile (p := isNd) (l := cs3)]
    rw [h6]
  generalize hb : cs3.dropWhile isNd = b at e6
  refine ⟨o1 :: os, r1 :: rs, b, ?_, by simp, by simp, ?_, ?_, ?_, ?_⟩
  · rw [e1, e2, e3, e4, e5, e6, ← hd]
  · rw [← hd]
    simp
  · intro c hc
    have hmem : c ∈ cs1.takeWhile (fun c => c ≠ '/') := h2 ▸ hc
    simpa using List.mem_takeWhile_imp hmem
  · intro c hc
    have hmem : c ∈ cs2.takeWhile (fun c => c ≠ '/') := h4 ▸ hc
    simpa using List.mem_takeWhile_imp hmem
  · intro c hc
    have hc2 : c ∈ d1 :: ds := by
      rw [hd]
      exact hc
    have hmem : c ∈ cs3.takeWhile isNd := by
      rw [h6]
      exact hc2
    exact List.mem_takeWhile_imp hmem

theorem findMatch_sound : ∀ {cs : List Char} {res : String × String × List Char},
    findMatch cs = some res →
    ∃ a cs2 : List Char, cs = a ++ cs2 ∧ matchAt cs2 = some res := by
  intro cs
  induction cs with
  | nil => intro res h; cases h
  | cons c t ih =>
    intro res h
    unfold findMatch at h
    cases hm : matchAt (c :: t) with
    | some r2 =>
      rw [hm] at h
      injection h with he
      exact ⟨[], c :: t, rfl, by rw [hm, he]⟩
    | none =>
      rw [hm] at h
      rcases ih h with ⟨a, cs2, heq, hma⟩
      exact ⟨c :: a, cs2, by rw [List.cons_append, ← heq], hma⟩

/-- Claim C4: parse_github_pr_url extracts owner acme, repo widgets and
number 42 from the example URL, and returns the format error on every
string in which the pattern `.../<owner>/<repo>/pull/<number>` occurs
nowhere. -/
theorem claim_c4 :
    parse_github_pr_url "https://github.com/acme/widgets/pull/42" =
      .ok { owner := "acme", repo := "widgets", pr_number := 42 } ∧
    ∀ s : String, ¬ MatchesPRPattern s →
      parse_github_pr_url s = .error urlFormatError := by
  constructor
  · rfl
  · intro s hs
    unfold parse_github_pr_url
    cases hf : findMatch s.data with
    | none => rfl
    | some res =>
      exfalso
      apply hs
      rcases findMatch_sound hf with ⟨a, cs2, heq, hma⟩
      rcases res with ⟨o, r, d⟩
      rcases matchAt_sound hma with ⟨oL, rL, b, hcs, hoL, hrL, hd, ho, hr, hdig⟩
      refine ⟨a, oL, rL, d, b, ?_, hoL, hrL, hd, ho, hr, hdig⟩
      rw [heq, hcs]
      simp [List.append_assoc]

/-- Witness for claim C4: the string "not a url" has no occurrence of the
pattern (it is shorter than the mandatory literals), and the parser rejects
it with the format error. -/
theorem claim_c4_witness :
    ¬ MatchesPRPattern "not a url" ∧
    parse_github_pr_url "not a url" = .error urlFormatError := by
  have hn : ¬ MatchesPRPattern "not a url" := by
    rintro ⟨a, oL, rL, d, b, heq, hoL, hrL, hd, -, -, -⟩
    have hlen := congrArg List.length heq
    simp [githubLit, pullLit, List.length_append] at hlen
    have h1 : 1 ≤ oL.length := List.length_pos.mpr hoL
    have h2 : 1 ≤ rL.length := List.length_pos.mpr hrL
    have h3 : 1 ≤ d.length := List.length_pos.mpr hd
    omega
  exact ⟨hn, claim_c4.2 "not a url" hn⟩
